import Mathlib

/-!
# Verification of the ScrambledWriter reveal-state computation

Shallow embedding of the algorithmic core of `src/scramblewriter.py`
(`MessageLabel.__init__` and the `shown_length` property setter).
Strings are modelled as `List Char`; Python integers as `Int`; the random
source `random.choice(range(33, 127))` is modelled as consuming successive
values of a function `g : Nat → Nat`, the `i`-th draw being `33 + g i % 94`
(exactly the values `random.choice(range(33, 127))` can return).
-/

set_option autoImplicit false

/-- Python `text.split('\n')`: split on every newline, keeping empty pieces
(so `splitLines [] = [[]]`, as `''.split('\n') == ['']`). -/
def splitLines : List Char → List (List Char)
  | [] => [[]]
  | c :: rest =>
    if c = '\n' then [] :: splitLines rest
    else
      match splitLines rest with
      | [] => [[c]]
      | l :: ls => (c :: l) :: ls

/-- The loop of `MessageLabel.__init__` (lines 66-72): starting from
`current_point`, record `current_point + len(line)` for each line and then
skip one position for the consumed newline. -/
def splitpointsAux : Nat → List (List Char) → List Nat
  | _, [] => []
  | cur, line :: rest => (cur + line.length) :: splitpointsAux (cur + line.length + 1) rest

/-- The list `self.splitpoints` as computed by `MessageLabel.__init__`. -/
def computeSplitpoints (text : List Char) : List Nat :=
  splitpointsAux 0 (splitLines text)

/-- The value `self.delay` as computed by `MessageLabel.__init__` (lines 60-63):
`min(delay, len(text))` when the supplied delay is non-negative, else
`len(text)`. -/
def normDelay (text : List Char) (delay : Int) : Int :=
  if delay ≥ 0 then min delay (text.length : Int) else (text.length : Int)

/-- One garbage character: `chr(random.choice(range(33, 127)))`, the `i`-th
random draw taken from the source `g`. -/
def drawChar (g : Nat → Nat) (i : Nat) : Char :=
  Char.ofNat (33 + g i % 94)

/-- The garbage list comprehension: `n` independent draws. -/
def mkGarbage (g : Nat → Nat) (n : Nat) : List Char :=
  (List.range n).map (drawChar g)

/-- The Regime-A loop (lines 106-108): for `num` in `splitpoints[:-1]`,
if `num < value` then `garbage[num] = '\n'`. -/
def applyBreaksA (splitpoints : List Nat) (value : Int) (garbage : List Char) : List Char :=
  splitpoints.dropLast.foldl
    (fun gb (num : Nat) => if (num : Int) < value then gb.set num '\n' else gb) garbage

/-- The Regime-B loop (lines 119-121): for `num` in `splitpoints[:-1]`,
if `num - non_garbage > 0 and num < value` then
`garbage[num - non_garbage] = '\n'`. -/
def applyBreaksB (splitpoints : List Nat) (value nonGarbage : Int) (garbage : List Char) :
    List Char :=
  splitpoints.dropLast.foldl
    (fun gb (num : Nat) =>
      if (num : Int) - nonGarbage > 0 ∧ (num : Int) < value
      then gb.set ((num : Int) - nonGarbage).toNat '\n' else gb) garbage

/-- The string passed to `setText` by the `shown_length` setter (lines 96-123).
Python `range(k)` for `k ≤ 0` is empty, hence the `Int.toNat` coercions;
Python `text[:k]` for `k ≥ len(text)` is the whole text, matching
`List.take`. -/
def computeDisplay (text : List Char) (delay : Int) (splitpoints : List Nat)
    (g : Nat → Nat) (value : Int) : List Char :=
  if value < delay then
    applyBreaksA splitpoints value (mkGarbage g value.toNat)
  else
    text.take (value - delay).toNat ++
      applyBreaksB splitpoints value (value - delay)
        (mkGarbage g (min ((text.length : Int) + delay - value) delay).toNat)

/-- The state of a `MessageLabel` relevant to the reveal computation:
`actual_text`, the normalized `delay`, the `splitpoints` list, the stored
`_shown_length` and the text last passed to `setText`. -/
structure MessageLabel where
  actual_text : List Char
  delay : Int
  splitpoints : List Nat
  shown_length : Int
  displayed : List Char

/-- The `shown_length` setter: stores the new value and recomputes the
displayed text. -/
def setShownLength (st : MessageLabel) (g : Nat → Nat) (value : Int) : MessageLabel :=
  { st with
    shown_length := value
    displayed := computeDisplay st.actual_text st.delay st.splitpoints g value }

/-- Constructor `MessageLabel.__init__`: normalize the delay, compute the splitpoints,
then run `self.shown_length = 0` (which goes through the setter). -/
def mkMessageLabel (text : List Char) (delay : Int) (g : Nat → Nat) : MessageLabel :=
  setShownLength
    { actual_text := text
      delay := normDelay text delay
      splitpoints := computeSplitpoints text
      shown_length := 0
      displayed := [] } g 0

/-- A sequence of `shown_length` assignments, each with its own random
source. -/
def applySets (st : MessageLabel) (l : List ((Nat → Nat) × Int)) : MessageLabel :=
  l.foldl (fun s p => setShownLength s p.1 p.2) st

/-- Modelled from the spec (§3 ParagraphBoundaries): boundaries as cumulative
code-point offsets within the *de-newlined* text — running totals of the
preceding line lengths, the consumed newline not counted toward the offset. -/
def specDeNewlinedBoundariesAux : Nat → List (List Char) → List Nat
  | _, [] => []
  | cur, line :: rest =>
    (cur + line.length) :: specDeNewlinedBoundariesAux (cur + line.length) rest

/-- Modelled from the spec: the boundary list the C4 wording describes. -/
def specDeNewlinedBoundaries (text : List Char) : List Nat :=
  specDeNewlinedBoundariesAux 0 (splitLines text)

/-- Offsets (in the original text) of the newline characters. -/
def nlPositionsAux : Nat → List Char → List Nat
  | _, [] => []
  | cur, c :: rest =>
    if c = '\n' then cur :: nlPositionsAux (cur + 1) rest
    else nlPositionsAux (cur + 1) rest

/-- All offsets at which the original text holds a line break. -/
def nlPositions (text : List Char) : List Nat :=
  nlPositionsAux 0 text

/-- The display string obtained by constructing a `MessageLabel` from `T` and
the supplied delay `d0`, then assigning cursor `c` to `shown_length` with
random source `g`. -/
def labelDisplay (T : List Char) (d0 : Int) (g : Nat → Nat) (c : Int) : List Char :=
  (setShownLength (mkMessageLabel T d0 (fun _ => 0)) g c).displayed

-- sanity checks against hand-executions of the Python code
example : computeSplitpoints "ab\ncd".data = [2, 5] := by decide
example : computeSplitpoints "a\nb\nc".data = [1, 3, 5] := by decide
example : computeSplitpoints [] = [0] := by decide
example : specDeNewlinedBoundaries "a\nb\nc".data = [1, 2, 3] := by decide
example : normDelay "ab\ncd".data (-1) = 5 := by decide
example : normDelay "ab\ncd".data 2 = 2 := by decide
example : computeDisplay "ab\ncd".data 2 (computeSplitpoints "ab\ncd".data) (fun _ => 0) 7
    = "ab\ncd".data := by decide
example : computeDisplay "ab\ncd".data 2 (computeSplitpoints "ab\ncd".data) (fun _ => 0) 3
    = ['a', '!', '\n'] := by decide
example : computeDisplay "ab\ncd".data 2 (computeSplitpoints "ab\ncd".data) (fun _ => 0) 1
    = ['!'] := by decide


/-! ## Structure of the splitpoints list -/

theorem splitLines_ne_nil : ∀ t : List Char, splitLines t ≠ []
  | [] => by simp [splitLines]
  | c :: rest => by
    by_cases h : c = '\n'
    · simp [splitLines, h]
    · cases hr : splitLines rest with
      | nil => simp [splitLines, h, hr]
      | cons l ls => simp [splitLines, h, hr]

theorem splitpointsAux_ne_nil {lines : List (List Char)} (h : lines ≠ []) (cur : Nat) :
    splitpointsAux cur lines ≠ [] := by
  cases lines with
  | nil => exact absurd rfl h
  | cons l ls => simp [splitpointsAux]

theorem splitpointsAux_splitLines_cons {c : Char} (h : c ≠ '\n') (rest : List Char) (cur : Nat) :
    splitpointsAux cur (splitLines (c :: rest)) = splitpointsAux (cur + 1) (splitLines rest) := by
  cases hr : splitLines rest with
  | nil => exact absurd hr (splitLines_ne_nil rest)
  | cons l ls =>
    simp only [splitLines, if_neg h, hr, splitpointsAux, List.length_cons]
    have h1 : cur + (l.length + 1) = cur + 1 + l.length := by omega
    rw [h1]

theorem dropLast_splitpointsAux : ∀ (t : List Char) (cur : Nat),
    (splitpointsAux cur (splitLines t)).dropLast = nlPositionsAux cur t
  | [], cur => by simp [splitLines, splitpointsAux, nlPositionsAux]
  | c :: rest, cur => by
    by_cases h : c = '\n'
    · subst h
      have hne : splitpointsAux (cur + 1) (splitLines rest) ≠ [] :=
        splitpointsAux_ne_nil (splitLines_ne_nil rest) (cur + 1)
      simp only [splitLines, if_pos rfl, splitpointsAux, nlPositionsAux, List.length_nil,
        Nat.add_zero]
      rw [List.dropLast_cons_of_ne_nil hne, dropLast_splitpointsAux rest (cur + 1)]
      simp
    · rw [splitpointsAux_splitLines_cons h rest cur, dropLast_splitpointsAux rest (cur + 1)]
      simp [nlPositionsAux, h]

theorem getLast?_splitpointsAux : ∀ (t : List Char) (cur : Nat),
    (splitpointsAux cur (splitLines t)).getLast? = some (cur + t.length)
  | [], cur => by simp [splitLines, splitpointsAux]
  | c :: rest, cur => by
    by_cases h : c = '\n'
    · subst h
      have ih := getLast?_splitpointsAux rest (cur + 1)
      simp only [splitLines, if_pos rfl, splitpointsAux, List.length_nil, Nat.add_zero]
      cases hxs : splitpointsAux (cur + 1) (splitLines rest) with
      | nil => rw [hxs] at ih; simp at ih
      | cons y ys =>
        rw [hxs] at ih
        rw [List.getLast?_cons_cons, ih]
        simp only [List.length_cons, Option.some.injEq]
        omega
    · rw [splitpointsAux_splitLines_cons h rest cur, getLast?_splitpointsAux rest (cur + 1)]
      simp only [List.length_cons, Option.some.injEq]
      omega

theorem mem_nlPositionsAux : ∀ (t : List Char) (cur x : Nat),
    x ∈ nlPositionsAux cur t → x < cur + t.length
  | [], cur, x => by simp [nlPositionsAux]
  | c :: rest, cur, x => by
    intro hx
    by_cases h : c = '\n'
    · simp only [nlPositionsAux, if_pos h, List.mem_cons] at hx
      rcases hx with rfl | hx
      · simp only [List.length_cons]; omega
      · have := mem_nlPositionsAux rest (cur + 1) x hx
        simp only [List.length_cons]; omega
    · simp only [nlPositionsAux, if_neg h] at hx
      have := mem_nlPositionsAux rest (cur + 1) x hx
      simp only [List.length_cons]; omega

theorem dropLast_computeSplitpoints (t : List Char) :
    (computeSplitpoints t).dropLast = nlPositions t :=
  dropLast_splitpointsAux t 0

theorem mem_dropLast_computeSplitpoints {t : List Char} {b : Nat}
    (hb : b ∈ (computeSplitpoints t).dropLast) : b < t.length := by
  rw [dropLast_computeSplitpoints] at hb
  have := mem_nlPositionsAux t 0 b hb
  omega

/-! ## The garbage list -/

theorem mkGarbage_length (g : Nat → Nat) (n : Nat) : (mkGarbage g n).length = n := by
  simp [mkGarbage]

theorem mkGarbage_getElem? (g : Nat → Nat) {n i : Nat} (h : i < n) :
    (mkGarbage g n)[i]? = some (drawChar g i) := by
  simp [mkGarbage, List.getElem?_range h]

theorem toNat_drawChar (g : Nat → Nat) (i : Nat) : (drawChar g i).toNat = 33 + g i % 94 := by
  have hlt : g i % 94 < 94 := Nat.mod_lt _ (by norm_num)
  have h : Nat.isValidChar (33 + g i % 94) := Or.inl (by omega)
  rw [drawChar, Char.ofNat, dif_pos h]
  rfl

theorem drawChar_ne_newline (g : Nat → Nat) (i : Nat) : drawChar g i ≠ '\n' := by
  intro h
  have h1 := toNat_drawChar g i
  rw [h] at h1
  have h2 : ('\n').toNat = 10 := rfl
  rw [h2] at h1
  omega

/-! ## The boundary-overwrite folds -/

theorem setFold_length (P : Nat → Prop) [DecidablePred P] (idx : Nat → Nat) (l : List Nat) :
    ∀ gb : List Char,
      (List.foldl (fun gb n => if P n then gb.set (idx n) '\n' else gb) gb l).length
        = gb.length := by
  induction l with
  | nil => intro gb; rfl
  | cons n rest ih =>
    intro gb
    rw [List.foldl_cons, ih]
    split <;> simp [List.length_set]

theorem setFold_stable (P : Nat → Prop) [DecidablePred P] (idx : Nat → Nat) (l : List Nat) :
    ∀ (gb : List Char) (j : Nat), gb[j]? = some '\n' →
      (List.foldl (fun gb n => if P n then gb.set (idx n) '\n' else gb) gb l)[j]?
        = some '\n' := by
  induction l with
  | nil => intro gb j h; exact h
  | cons n rest ih =>
    intro gb j h
    rw [List.foldl_cons]
    apply ih
    split
    · by_cases he : idx n = j
      · subst he
        have hjl : idx n < gb.length := by
          by_contra hc
          rw [List.getElem?_eq_none (by omega)] at h
          exact Option.noConfusion h
        exact List.getElem?_set_eq_of_lt '\n' hjl
      · rw [List.getElem?_set_ne he]
        exact h
    · exact h

theorem setFold_break (P : Nat → Prop) [DecidablePred P] (idx : Nat → Nat) (l : List Nat) :
    ∀ (gb : List Char) (b : Nat), b ∈ l → P b → idx b < gb.length →
      (List.foldl (fun gb n => if P n then gb.set (idx n) '\n' else gb) gb l)[idx b]?
        = some '\n' := by
  induction l with
  | nil => intro gb b hmem; exact absurd hmem (List.not_mem_nil b)
  | cons n rest ih =>
    intro gb b hmem hP hlen
    rw [List.foldl_cons]
    rcases List.mem_cons.mp hmem with rfl | hmem2
    · apply setFold_stable
      rw [if_pos hP]
      exact List.getElem?_set_eq_of_lt '\n' hlen
    · apply ih _ _ hmem2 hP
      split
      · rw [List.length_set]; exact hlen
      · exact hlen

theorem setFold_skip (P : Nat → Prop) [DecidablePred P] (idx : Nat → Nat) (l : List Nat) :
    ∀ (gb : List Char) (j : Nat), (∀ b ∈ l, P b → idx b ≠ j) →
      (List.foldl (fun gb n => if P n then gb.set (idx n) '\n' else gb) gb l)[j]?
        = gb[j]? := by
  induction l with
  | nil => intro gb j _; rfl
  | cons n rest ih =>
    intro gb j h
    rw [List.foldl_cons, ih _ _ (fun b hb => h b (List.mem_cons_of_mem _ hb))]
    split
    · rename_i hP
      exact List.getElem?_set_ne (h n (List.mem_cons_self n rest) hP)
    · rfl

theorem applyBreaksA_length (sp : List Nat) (value : Int) (gb : List Char) :
    (applyBreaksA sp value gb).length = gb.length :=
  setFold_length (fun num => (num : Int) < value) (fun num => num) sp.dropLast gb

theorem applyBreaksA_break (sp : List Nat) (value : Int) (gb : List Char) {b : Nat}
    (hmem : b ∈ sp.dropLast) (hlt : (b : Int) < value) (hlen : b < gb.length) :
    (applyBreaksA sp value gb)[b]? = some '\n' :=
  setFold_break (fun num => (num : Int) < value) (fun num => num) sp.dropLast gb b hmem hlt hlen

theorem applyBreaksA_skip (sp : List Nat) (value : Int) (gb : List Char) {j : Nat}
    (h : ∀ b ∈ sp.dropLast, (b : Int) < value → b ≠ j) :
    (applyBreaksA sp value gb)[j]? = gb[j]? :=
  setFold_skip (fun num => (num : Int) < value) (fun num => num) sp.dropLast gb j h

theorem applyBreaksB_length (sp : List Nat) (value ng : Int) (gb : List Char) :
    (applyBreaksB sp value ng gb).length = gb.length :=
  setFold_length (fun num => (num : Int) - ng > 0 ∧ (num : Int) < value)
    (fun num => ((num : Int) - ng).toNat) sp.dropLast gb

theorem applyBreaksB_break (sp : List Nat) (value ng : Int) (gb : List Char) {b : Nat}
    (hmem : b ∈ sp.dropLast) (hpos : (b : Int) - ng > 0) (hlt : (b : Int) < value)
    (hlen : ((b : Int) - ng).toNat < gb.length) :
    (applyBreaksB sp value ng gb)[((b : Int) - ng).toNat]? = some '\n' :=
  setFold_break (fun num => (num : Int) - ng > 0 ∧ (num : Int) < value)
    (fun num => ((num : Int) - ng).toNat) sp.dropLast gb b hmem ⟨hpos, hlt⟩ hlen

theorem applyBreaksB_skip (sp : List Nat) (value ng : Int) (gb : List Char) {j : Nat}
    (h : ∀ b ∈ sp.dropLast, (b : Int) - ng > 0 → (b : Int) < value →
      ((b : Int) - ng).toNat ≠ j) :
    (applyBreaksB sp value ng gb)[j]? = gb[j]? :=
  setFold_skip (fun num => (num : Int) - ng > 0 ∧ (num : Int) < value)
    (fun num => ((num : Int) - ng).toNat) sp.dropLast gb j
    (fun b hb hP => h b hb hP.1 hP.2)

theorem applyBreaksA_nil (sp : List Nat) (value : Int) :
    applyBreaksA sp value [] = [] :=
  List.length_eq_zero.mp (applyBreaksA_length sp value [])

theorem applyBreaksB_nil (sp : List Nat) (value ng : Int) :
    applyBreaksB sp value ng [] = [] :=
  List.length_eq_zero.mp (applyBreaksB_length sp value ng [])

/-! ## The display string of a constructed label -/

theorem labelDisplay_eq (T : List Char) (d0 : Int) (g : Nat → Nat) (c : Int) :
    labelDisplay T d0 g c = computeDisplay T (normDelay T d0) (computeSplitpoints T) g c :=
  rfl

theorem normDelay_nonneg (T : List Char) (d0 : Int) : 0 ≤ normDelay T d0 := by
  rw [normDelay]; split <;> omega

theorem normDelay_le_length (T : List Char) (d0 : Int) :
    normDelay T d0 ≤ (T.length : Int) := by
  rw [normDelay]; split <;> omega

theorem labelDisplay_end (T : List Char) (d0 : Int) (g : Nat → Nat) :
    labelDisplay T d0 g ((T.length : Int) + normDelay T d0) = T := by
  have hd0 : 0 ≤ normDelay T d0 := normDelay_nonneg T d0
  rw [labelDisplay_eq, computeDisplay, if_neg (by omega)]
  have hm : (min ((T.length : Int) + normDelay T d0 - ((T.length : Int) + normDelay T d0))
      (normDelay T d0)).toNat = 0 := by omega
  rw [hm]
  have hg : mkGarbage g 0 = [] := rfl
  rw [hg, applyBreaksB_nil, List.append_nil]
  have ht : ((T.length : Int) + normDelay T d0 - normDelay T d0).toNat = T.length := by omega
  rw [ht, List.take_length]

/-! ## Claim theorems -/

/-- C3: for every text `T` and normalized garbage budget, setting
`shown_length` to the end value `length(T) + delay` produces exactly `T`,
regardless of the random draws. -/
theorem C3_end_cursor_yields_exact_text (T : List Char) (d0 : Int) (g : Nat → Nat) :
    labelDisplay T d0 g ((T.length : Int) + normDelay T d0) = T :=
  labelDisplay_end T d0 g

/-- C6: construction normalizes the garbage budget: a negative supplied delay
is replaced by `length(T)`, a non-negative one by `min(supplied, length(T))`,
and the invariant `0 ≤ delay ≤ length(T)` always holds. -/
theorem C6_delay_normalization (T : List Char) (d0 : Int) :
    (d0 < 0 → normDelay T d0 = (T.length : Int)) ∧
    (0 ≤ d0 → normDelay T d0 = min d0 (T.length : Int)) ∧
    0 ≤ normDelay T d0 ∧ normDelay T d0 ≤ (T.length : Int) := by
  refine ⟨fun h => ?_, fun h => ?_, normDelay_nonneg T d0, normDelay_le_length T d0⟩
  · rw [normDelay, if_neg (by omega)]
  · rw [normDelay, if_pos (by omega)]

/-- Witness for C6 at `T = "abc"`, supplied delays `-1` and `2`. -/
theorem C6_delay_normalization_witness :
    normDelay ['a', 'b', 'c'] (-1) = 3 ∧ normDelay ['a', 'b', 'c'] 2 = 2 := by
  have h1 := (C6_delay_normalization ['a', 'b', 'c'] (-1)).1 (by decide)
  have h2 := (C6_delay_normalization ['a', 'b', 'c'] 2).2.1 (by decide)
  rw [h1, h2]
  decide

/-- C7 counterexample: construction from the empty string does NOT record an
empty boundary list — `''.split('\n')` is `['']`, so one boundary (0) is
recorded. -/
theorem C7_counterexample : computeSplitpoints [] ≠ ([] : List Nat) := by decide

/-- C7 amended: construction from the empty string succeeds for every supplied
delay, the normalized delay is 0, and the recorded boundary list is `[0]` —
the end-of-text sentinel alone, so there are no interior boundaries. -/
theorem C7_empty_text_construction (d0 : Int) :
    normDelay [] d0 = 0 ∧ computeSplitpoints [] = [0] ∧
      (computeSplitpoints ([] : List Char)).dropLast = [] := by
  refine ⟨?_, by decide, by decide⟩
  rw [normDelay]
  simp only [List.length_nil, Nat.cast_zero]
  split <;> omega

/-- C4 counterexample: for `"a\nb\nc"` the code records boundaries `[1, 3, 5]`
(offsets in the original text, one step per consumed newline), while the
claimed de-newlined running totals are `[1, 2, 3]`. -/
theorem C4_counterexample :
    computeSplitpoints ['a', '\n', 'b', '\n', 'c'] = [1, 3, 5] ∧
    specDeNewlinedBoundaries ['a', '\n', 'b', '\n', 'c'] = [1, 2, 3] ∧
    computeSplitpoints ['a', '\n', 'b', '\n', 'c'] ≠
      specDeNewlinedBoundaries ['a', '\n', 'b', '\n', 'c'] := by decide

/-- C4 amended: every recorded boundary is a cumulative offset within the
ORIGINAL text: the interior boundaries (all but the last) are exactly the
offsets of the line breaks in the original text, in order, and the final
recorded boundary equals the length of the original text. -/
theorem C4_boundaries_are_original_text_offsets (T : List Char) :
    (computeSplitpoints T).dropLast = nlPositions T ∧
    (computeSplitpoints T).getLast? = some T.length := by
  refine ⟨dropLast_computeSplitpoints T, ?_⟩
  have h := getLast?_splitpointsAux T 0
  rw [computeSplitpoints, h]
  simp

/-- C9: assigning `shown_length` any sequence of cursor values leaves the
construction-time metadata — `actual_text`, `splitpoints` and the normalized
delay — unchanged. -/
theorem C9_metadata_unchanged (st : MessageLabel) (l : List ((Nat → Nat) × Int)) :
    (applySets st l).actual_text = st.actual_text ∧
    (applySets st l).splitpoints = st.splitpoints ∧
    (applySets st l).delay = st.delay := by
  induction l generalizing st with
  | nil => exact ⟨rfl, rfl, rfl⟩
  | cons p rest ih =>
    have h := ih (setShownLength st p.1 p.2)
    exact ⟨h.1, h.2.1, h.2.2⟩

/-- C2: for cursor `0 ≤ c < delay` (Regime A) the display has length exactly
`c`; every interior boundary `b < c` carries a line break at position `b`, and
every other position holds a character with code point in 33..126 (so never a
space or a line break from the random draw). -/
theorem C2_regimeA_pure_garbage (T : List Char) (d0 : Int) (g : Nat → Nat) (c : Int)
    (hc0 : 0 ≤ c) (hcd : c < normDelay T d0) :
    ((labelDisplay T d0 g c).length : Int) = c ∧
    (∀ b ∈ (computeSplitpoints T).dropLast, (b : Int) < c →
      (labelDisplay T d0 g c)[b]? = some '\n') ∧
    (∀ i : Nat, (i : Int) < c → i ∉ (computeSplitpoints T).dropLast →
      ∃ ch, (labelDisplay T d0 g c)[i]? = some ch ∧ 33 ≤ ch.toNat ∧ ch.toNat ≤ 126) := by
  have hd : labelDisplay T d0 g c
      = applyBreaksA (computeSplitpoints T) c (mkGarbage g c.toNat) := by
    rw [labelDisplay_eq, computeDisplay, if_pos hcd]
  refine ⟨?_, ?_, ?_⟩
  · rw [hd, applyBreaksA_length, mkGarbage_length]
    omega
  · intro b hb hbc
    rw [hd]
    exact applyBreaksA_break _ _ _ hb hbc (by rw [mkGarbage_length]; omega)
  · intro i hic hmem
    refine ⟨drawChar g i, ?_, ?_, ?_⟩
    · rw [hd, applyBreaksA_skip _ _ _ (by intro b hb hblt hbi; subst hbi; exact hmem hb),
        mkGarbage_getElem? g (by omega : i < c.toNat)]
    · rw [toNat_drawChar]
      omega
    · rw [toNat_drawChar]
      have hm : g i % 94 < 94 := Nat.mod_lt _ (by norm_num)
      omega

/-- Witness for C2 at `T = "ab\ncd"`, supplied delay `-1` (normalized 5),
cursor 3, random source constantly 0. -/
theorem C2_regimeA_pure_garbage_witness :
    ((labelDisplay ['a', 'b', '\n', 'c', 'd'] (-1) (fun _ => 0) 3).length : Int) = 3 ∧
    (∀ b ∈ (computeSplitpoints ['a', 'b', '\n', 'c', 'd']).dropLast, (b : Int) < 3 →
      (labelDisplay ['a', 'b', '\n', 'c', 'd'] (-1) (fun _ => 0) 3)[b]? = some '\n') ∧
    (∀ i : Nat, (i : Int) < 3 → i ∉ (computeSplitpoints ['a', 'b', '\n', 'c', 'd']).dropLast →
      ∃ ch, (labelDisplay ['a', 'b', '\n', 'c', 'd'] (-1) (fun _ => 0) 3)[i]? = some ch ∧
        33 ≤ ch.toNat ∧ ch.toNat ≤ 126) :=
  C2_regimeA_pure_garbage ['a', 'b', '\n', 'c', 'd'] (-1) (fun _ => 0) 3
    (by decide) (by decide)

/-- C1: for cursor `delay ≤ c ≤ length(T) + delay` (Regime B) the display is
the real-text prefix `T[0 : c - delay]` (identical on every call, whatever the
random draws) followed by a garbage tail of exactly
`min(length(T) + delay - c, delay)` characters; every interior boundary `b`
with `b - (c - delay) > 0` and `b < c` forces a line break at tail position
`b - (c - delay)`, and every other tail character has a code point in
33..126. -/
theorem C1_regimeB_prefix_and_garbage_tail (T : List Char) (d0 : Int) (g : Nat → Nat)
    (c : Int) (hdc : normDelay T d0 ≤ c) (hc : c ≤ (T.length : Int) + normDelay T d0) :
    labelDisplay T d0 g c
        = T.take (c - normDelay T d0).toNat
          ++ (labelDisplay T d0 g c).drop (c - normDelay T d0).toNat ∧
    (labelDisplay T d0 g c).take (c - normDelay T d0).toNat
        = T.take (c - normDelay T d0).toNat ∧
    ((T.take (c - normDelay T d0).toNat).length : Int) = c - normDelay T d0 ∧
    (((labelDisplay T d0 g c).drop (c - normDelay T d0).toNat).length : Int)
        = min ((T.length : Int) + normDelay T d0 - c) (normDelay T d0) ∧
    (∀ b ∈ (computeSplitpoints T).dropLast,
      0 < (b : Int) - (c - normDelay T d0) → (b : Int) < c →
        ((labelDisplay T d0 g c).drop
            (c - normDelay T d0).toNat)[((b : Int) - (c - normDelay T d0)).toNat]?
          = some '\n') ∧
    (∀ i : Nat,
      i < ((labelDisplay T d0 g c).drop (c - normDelay T d0).toNat).length →
      (∀ b ∈ (computeSplitpoints T).dropLast,
        0 < (b : Int) - (c - normDelay T d0) → (b : Int) < c →
          ((b : Int) - (c - normDelay T d0)).toNat ≠ i) →
      ∃ ch, ((labelDisplay T d0 g c).drop (c - normDelay T d0).toNat)[i]? = some ch ∧
        33 ≤ ch.toNat ∧ ch.toNat ≤ 126) := by
  have hd0 : 0 ≤ normDelay T d0 := normDelay_nonneg T d0
  have hdl : normDelay T d0 ≤ (T.length : Int) := normDelay_le_length T d0
  have hprefix_len : (T.take (c - normDelay T d0).toNat).length
      = (c - normDelay T d0).toNat := by
    rw [List.length_take]
    omega
  have hdisp : labelDisplay T d0 g c
      = T.take (c - normDelay T d0).toNat
        ++ applyBreaksB (computeSplitpoints T) c (c - normDelay T d0)
            (mkGarbage g
              (min ((T.length : Int) + normDelay T d0 - c) (normDelay T d0)).toNat) := by
    rw [labelDisplay_eq, computeDisplay, if_neg (by omega)]
  have htake : (labelDisplay T d0 g c).take (c - normDelay T d0).toNat
      = T.take (c - normDelay T d0).toNat := by
    rw [hdisp, List.take_left' hprefix_len]
  have htail : (labelDisplay T d0 g c).drop (c - normDelay T d0).toNat
      = applyBreaksB (computeSplitpoints T) c (c - normDelay T d0)
          (mkGarbage g
            (min ((T.length : Int) + normDelay T d0 - c) (normDelay T d0)).toNat) := by
    rw [hdisp, List.drop_left' hprefix_len]
  have htail_len : ((labelDisplay T d0 g c).drop (c - normDelay T d0).toNat).length
      = (min ((T.length : Int) + normDelay T d0 - c) (normDelay T d0)).toNat := by
    rw [htail, applyBreaksB_length, mkGarbage_length]
  refine ⟨?_, htake, ?_, ?_, ?_, ?_⟩
  · conv_lhs => rw [← List.take_append_drop (c - normDelay T d0).toNat (labelDisplay T d0 g c)]
    rw [htake]
  · rw [hprefix_len]
    omega
  · rw [htail_len]
    omega
  · intro b hb hbp hblt
    have hbT : b < T.length := mem_dropLast_computeSplitpoints hb
    rw [htail]
    exact applyBreaksB_break _ _ _ _ hb hbp hblt (by rw [mkGarbage_length]; omega)
  · intro i hi hnb
    rw [htail_len] at hi
    refine ⟨drawChar g i, ?_, ?_, ?_⟩
    · rw [htail, applyBreaksB_skip _ _ _ _ hnb, mkGarbage_getElem? g hi]
    · rw [toNat_drawChar]
      omega
    · rw [toNat_drawChar]
      have hm : g i % 94 < 94 := Nat.mod_lt _ (by norm_num)
      omega

/-- Witness for C1 at `T = "ab\ncd"`, supplied delay 2, cursor 3, random
source constantly 0: the display is `"a" ++ tail` with a break at tail
position 1 (boundary 2 minus one revealed character). -/
theorem C1_regimeB_prefix_and_garbage_tail_witness :
    labelDisplay ['a', 'b', '\n', 'c', 'd'] 2 (fun _ => 0) 3
        = ['a', 'b', '\n', 'c', 'd'].take
            ((3 : Int) - normDelay ['a', 'b', '\n', 'c', 'd'] 2).toNat
          ++ (labelDisplay ['a', 'b', '\n', 'c', 'd'] 2 (fun _ => 0) 3).drop
            ((3 : Int) - normDelay ['a', 'b', '\n', 'c', 'd'] 2).toNat ∧
    (labelDisplay ['a', 'b', '\n', 'c', 'd'] 2 (fun _ => 0) 3).take
        ((3 : Int) - normDelay ['a', 'b', '\n', 'c', 'd'] 2).toNat
      = ['a', 'b', '\n', 'c', 'd'].take
          ((3 : Int) - normDelay ['a', 'b', '\n', 'c', 'd'] 2).toNat ∧
    ((['a', 'b', '\n', 'c', 'd'].take
        ((3 : Int) - normDelay ['a', 'b', '\n', 'c', 'd'] 2).toNat).length : Int)
      = (3 : Int) - normDelay ['a', 'b', '\n', 'c', 'd'] 2 ∧
    (((labelDisplay ['a', 'b', '\n', 'c', 'd'] 2 (fun _ => 0) 3).drop
        ((3 : Int) - normDelay ['a', 'b', '\n', 'c', 'd'] 2).toNat).length : Int)
      = min (((['a', 'b', '\n', 'c', 'd'] : List Char).length : Int)
            + normDelay ['a', 'b', '\n', 'c', 'd'] 2 - 3)
          (normDelay ['a', 'b', '\n', 'c', 'd'] 2) ∧
    (∀ b ∈ (computeSplitpoints ['a', 'b', '\n', 'c', 'd']).dropLast,
      0 < (b : Int) - ((3 : Int) - normDelay ['a', 'b', '\n', 'c', 'd'] 2) →
        (b : Int) < 3 →
        ((labelDisplay ['a', 'b', '\n', 'c', 'd'] 2 (fun _ => 0) 3).drop
            ((3 : Int) - normDelay ['a', 'b', '\n', 'c', 'd'] 2).toNat)[((b : Int)
              - ((3 : Int) - normDelay ['a', 'b', '\n', 'c', 'd'] 2)).toNat]?
          = some '\n') ∧
    (∀ i : Nat,
      i < ((labelDisplay ['a', 'b', '\n', 'c', 'd'] 2 (fun _ => 0) 3).drop
          ((3 : Int) - normDelay ['a', 'b', '\n', 'c', 'd'] 2).toNat).length →
      (∀ b ∈ (computeSplitpoints ['a', 'b', '\n', 'c', 'd']).dropLast,
        0 < (b : Int) - ((3 : Int) - normDelay ['a', 'b', '\n', 'c', 'd'] 2) →
          (b : Int) < 3 →
          ((b : Int) - ((3 : Int) - normDelay ['a', 'b', '\n', 'c', 'd'] 2)).toNat ≠ i) →
      ∃ ch, ((labelDisplay ['a', 'b', '\n', 'c', 'd'] 2 (fun _ => 0) 3).drop
          ((3 : Int) - normDelay ['a', 'b', '\n', 'c', 'd'] 2).toNat)[i]? = some ch ∧
        33 ≤ ch.toNat ∧ ch.toNat ≤ 126) :=
  C1_regimeB_prefix_and_garbage_tail ['a', 'b', '\n', 'c', 'd'] 2 (fun _ => 0) 3
    (by decide) (by decide)

/-- C10: every index used by the boundary-overwrite loops is in bounds of the
generated garbage list whenever its guard holds — `b` itself against a garbage
list of length `cursor` in Regime A, and `b - (c - delay)` against the tail of
length `min(length + delay - c, delay)` in Regime B. -/
theorem C10_break_indices_in_bounds (T : List Char) (d0 : Int) (g : Nat → Nat) (c : Int)
    (hc0 : 0 ≤ c) (hc1 : c ≤ (T.length : Int) + normDelay T d0) :
    (c < normDelay T d0 →
      ∀ b ∈ (computeSplitpoints T).dropLast, (b : Int) < c →
        b < (mkGarbage g c.toNat).length) ∧
    (normDelay T d0 ≤ c →
      ∀ b ∈ (computeSplitpoints T).dropLast,
        0 < (b : Int) - (c - normDelay T d0) → (b : Int) < c →
          0 < ((b : Int) - (c - normDelay T d0)).toNat ∧
          ((b : Int) - (c - normDelay T d0)).toNat
            < (mkGarbage g
                (min ((T.length : Int) + normDelay T d0 - c) (normDelay T d0)).toNat).length) := by
  constructor
  · intro _ b _ hblt
    rw [mkGarbage_length]
    omega
  · intro hdc b hb hbp hblt
    have hbT : b < T.length := mem_dropLast_computeSplitpoints hb
    have hd0 : 0 ≤ normDelay T d0 := normDelay_nonneg T d0
    rw [mkGarbage_length]
    omega

/-- Witness for C10 at `T = "ab\ncd"`, supplied delay 2, cursor 3,
boundary 2 (Regime B). -/
theorem C10_break_indices_in_bounds_witness :
    0 < ((2 : Nat) - ((3 : Int) - normDelay ['a', 'b', '\n', 'c', 'd'] 2)).toNat ∧
    (((2 : Nat) : Int) - ((3 : Int) - normDelay ['a', 'b', '\n', 'c', 'd'] 2)).toNat
      < (mkGarbage (fun _ => 0)
          (min (((['a', 'b', '\n', 'c', 'd'] : List Char).length : Int)
              + normDelay ['a', 'b', '\n', 'c', 'd'] 2 - 3)
            (normDelay ['a', 'b', '\n', 'c', 'd'] 2)).toNat).length :=
  (C10_break_indices_in_bounds ['a', 'b', '\n', 'c', 'd'] 2 (fun _ => 0) 3
      (by decide) (by decide)).2 (by decide) 2 (by decide) (by decide) (by decide)

theorem labelDisplay_nonpos (T : List Char) (d0 : Int) (g : Nat → Nat) {c : Int}
    (hc : c ≤ 0) : labelDisplay T d0 g c = [] := by
  have hd0 : 0 ≤ normDelay T d0 := normDelay_nonneg T d0
  rw [labelDisplay_eq, computeDisplay]
  split
  · have h0 : c.toNat = 0 := by omega
    rw [h0]
    have hg : mkGarbage g 0 = [] := rfl
    rw [hg, applyBreaksA_nil]
  · rename_i hnc
    have hdc : normDelay T d0 ≤ c := not_lt.mp hnc
    have hc0 : c = 0 := by omega
    have hd_eq : normDelay T d0 = 0 := by omega
    subst hc0
    rw [hd_eq]
    have e1 : ((0 : Int) - 0).toNat = 0 := by norm_num
    have e2 : (min ((T.length : Int) + 0 - 0) 0).toNat = 0 := by omega
    rw [e1, e2, List.take_zero]
    have hg : mkGarbage g 0 = [] := rfl
    rw [hg, applyBreaksB_nil]
    rfl

/-- C5: out-of-range cursors are clamped in effect: a negative cursor yields
the same display as cursor 0 (the empty string), and a cursor above
`length(T) + delay` yields the same display as `length(T) + delay` (exactly
`T`); the computation is total in both cases. -/
theorem C5_out_of_range_cursor_clamped (T : List Char) (d0 : Int) (g1 g2 : Nat → Nat)
    (c : Int) :
    (c < 0 → labelDisplay T d0 g1 c = labelDisplay T d0 g2 0 ∧
      labelDisplay T d0 g1 c = []) ∧
    ((T.length : Int) + normDelay T d0 < c →
      labelDisplay T d0 g1 c = labelDisplay T d0 g2 ((T.length : Int) + normDelay T d0) ∧
      labelDisplay T d0 g1 c = T) := by
  have hd0 : 0 ≤ normDelay T d0 := normDelay_nonneg T d0
  constructor
  · intro hc
    have h1 : labelDisplay T d0 g1 c = [] := labelDisplay_nonpos T d0 g1 (by omega)
    have h2 : labelDisplay T d0 g2 0 = [] := labelDisplay_nonpos T d0 g2 (by omega)
    exact ⟨h1.trans h2.symm, h1⟩
  · intro hc
    have hover : labelDisplay T d0 g1 c = T := by
      rw [labelDisplay_eq, computeDisplay, if_neg (by omega)]
      have e2 : (min ((T.length : Int) + normDelay T d0 - c) (normDelay T d0)).toNat
          = 0 := by omega
      rw [e2]
      have hg : mkGarbage g1 0 = [] := rfl
      rw [hg, applyBreaksB_nil, List.append_nil]
      exact List.take_of_length_le (by omega)
    exact ⟨hover.trans (labelDisplay_end T d0 g2).symm, hover⟩

/-- Witness for C5 at `T = "ab"`, supplied delay `-1`, cursors `-5` and 10. -/
theorem C5_out_of_range_cursor_clamped_witness :
    labelDisplay ['a', 'b'] (-1) (fun _ => 0) (-5) = [] ∧
    labelDisplay ['a', 'b'] (-1) (fun _ => 0) 10 = ['a', 'b'] := by
  have h1 := (C5_out_of_range_cursor_clamped ['a', 'b'] (-1) (fun _ => 0)
    (fun _ => 1) (-5)).1 (by decide)
  have h2 := (C5_out_of_range_cursor_clamped ['a', 'b'] (-1) (fun _ => 0)
    (fun _ => 1) 10).2 (by decide)
  exact ⟨h1.2, h2.2⟩

theorem mapNl_applyBreaksA (sp : List Nat) (value : Int) (g1 g2 : Nat → Nat) (n : Nat) :
    (applyBreaksA sp value (mkGarbage g1 n)).map (fun ch => ch == '\n')
      = (applyBreaksA sp value (mkGarbage g2 n)).map (fun ch => ch == '\n') := by
  apply List.ext_getElem?
  intro i
  rw [List.getElem?_map, List.getElem?_map]
  by_cases hi : i < n
  · by_cases hex : ∃ b ∈ sp.dropLast, (b : Int) < value ∧ b = i
    · rcases hex with ⟨b, hb, hblt, rfl⟩
      rw [applyBreaksA_break _ _ _ hb hblt (by rw [mkGarbage_length]; exact hi),
        applyBreaksA_break _ _ _ hb hblt (by rw [mkGarbage_length]; exact hi)]
    · have hskip : ∀ b ∈ sp.dropLast, (b : Int) < value → b ≠ i :=
        fun b hb hblt hbi => hex ⟨b, hb, hblt, hbi⟩
      rw [applyBreaksA_skip _ _ _ hskip, applyBreaksA_skip _ _ _ hskip,
        mkGarbage_getElem? g1 hi, mkGarbage_getElem? g2 hi]
      have e1 : (drawChar g1 i == '\n') = false :=
        beq_eq_false_iff_ne.mpr (drawChar_ne_newline g1 i)
      have e2 : (drawChar g2 i == '\n') = false :=
        beq_eq_false_iff_ne.mpr (drawChar_ne_newline g2 i)
      simp [e1, e2]
  · have e1 : (applyBreaksA sp value (mkGarbage g1 n))[i]? = none := by
      apply List.getElem?_eq_none
      rw [applyBreaksA_length, mkGarbage_length]
      omega
    have e2 : (applyBreaksA sp value (mkGarbage g2 n))[i]? = none := by
      apply List.getElem?_eq_none
      rw [applyBreaksA_length, mkGarbage_length]
      omega
    rw [e1, e2]

theorem mapNl_applyBreaksB (sp : List Nat) (value ng : Int) (g1 g2 : Nat → Nat) (n : Nat) :
    (applyBreaksB sp value ng (mkGarbage g1 n)).map (fun ch => ch == '\n')
      = (applyBreaksB sp value ng (mkGarbage g2 n)).map (fun ch => ch == '\n') := by
  apply List.ext_getElem?
  intro i
  rw [List.getElem?_map, List.getElem?_map]
  by_cases hi : i < n
  · by_cases hex : ∃ b ∈ sp.dropLast,
      (0 < (b : Int) - ng ∧ (b : Int) < value) ∧ ((b : Int) - ng).toNat = i
    · rcases hex with ⟨b, hb, ⟨hbp, hblt⟩, rfl⟩
      rw [applyBreaksB_break _ _ _ _ hb hbp hblt (by rw [mkGarbage_length]; exact hi),
        applyBreaksB_break _ _ _ _ hb hbp hblt (by rw [mkGarbage_length]; exact hi)]
    · have hskip : ∀ b ∈ sp.dropLast, (b : Int) - ng > 0 → (b : Int) < value →
          ((b : Int) - ng).toNat ≠ i :=
        fun b hb hbp hblt hbi => hex ⟨b, hb, ⟨hbp, hblt⟩, hbi⟩
      rw [applyBreaksB_skip _ _ _ _ hskip, applyBreaksB_skip _ _ _ _ hskip,
        mkGarbage_getElem? g1 hi, mkGarbage_getElem? g2 hi]
      have e1 : (drawChar g1 i == '\n') = false :=
        beq_eq_false_iff_ne.mpr (drawChar_ne_newline g1 i)
      have e2 : (drawChar g2 i == '\n') = false :=
        beq_eq_false_iff_ne.mpr (drawChar_ne_newline g2 i)
      simp [e1, e2]
  · have e1 : (applyBreaksB sp value ng (mkGarbage g1 n))[i]? = none := by
      apply List.getElem?_eq_none
      rw [applyBreaksB_length, mkGarbage_length]
      omega
    have e2 : (applyBreaksB sp value ng (mkGarbage g2 n))[i]? = none := by
      apply List.getElem?_eq_none
      rw [applyBreaksB_length, mkGarbage_length]
      omega
    rw [e1, e2]

/-- C8: the display computation is deterministic in length and break
placement — two `shown_length` assignments with the same text, supplied delay
and cursor but different random draws produce strings of the same length with
line-break characters at exactly the same positions. -/
theorem C8_length_and_breaks_deterministic (T : List Char) (d0 : Int) (c : Int)
    (g1 g2 : Nat → Nat) :
    (labelDisplay T d0 g1 c).length = (labelDisplay T d0 g2 c).length ∧
    (labelDisplay T d0 g1 c).map (fun ch => ch == '\n')
      = (labelDisplay T d0 g2 c).map (fun ch => ch == '\n') := by
  have hmap : (labelDisplay T d0 g1 c).map (fun ch => ch == '\n')
      = (labelDisplay T d0 g2 c).map (fun ch => ch == '\n') := by
    rw [labelDisplay_eq, labelDisplay_eq, computeDisplay, computeDisplay]
    by_cases hcd : c < normDelay T d0
    · rw [if_pos hcd, if_pos hcd]
      exact mapNl_applyBreaksA _ _ g1 g2 _
    · rw [if_neg hcd, if_neg hcd, List.map_append, List.map_append]
      congr 1
      exact mapNl_applyBreaksB _ _ _ g1 g2 _
  refine ⟨?_, hmap⟩
  have hlen := congrArg List.length hmap
  simpa using hlen
